import Mathlib

/-!
Verification development for the expirable-bin repository.

The repository ships a thin Python client (src/python/expire_bin.py) that
forwards every logical operation to a server-side Lua module named
"expire_bin" through the aerospike apply primitive.  The Python file is
embedded directly below.  The Lua module itself is not among the given
sources, so the record-level semantics of the operations (codec, expiration
evaluator, operation engine, reaper) are modelled from the spec, in the
namespace expire_bin; each such definition carries a doc comment starting
with "Modelled from the spec:".
-/

namespace ExpirableBin

/-- Module-name constant from src/python/expire_bin.py. -/
def MODULE_NAME : String := "expire_bin"

/-- Operation-name constant GET_OP from src/python/expire_bin.py. -/
def GET_OP : String := "get"

/-- Operation-name constant PUT_OP from src/python/expire_bin.py. -/
def PUT_OP : String := "put"

/-- Operation-name constant BATCH_PUT_OP from src/python/expire_bin.py. -/
def BATCH_PUT_OP : String := "puts"

/-- Operation-name constant TTL_OP from src/python/expire_bin.py. -/
def TTL_OP : String := "ttl"

/-- Operation-name constant TOUCH_OP from src/python/expire_bin.py. -/
def TOUCH_OP : String := "touch"

/-- Operation-name constant CLEAN_OP from src/python/expire_bin.py. -/
def CLEAN_OP : String := "clean"

/-- A key is a (namespace, set, record name) triple, as documented in the
Python docstrings. -/
abbrev Key := String × String × String

/-- Values carried in the argument list of a client.apply call: Python
strings and integers are what the wrapper marshals. -/
inductive PyVal where
  | pyStr (s : String)
  | pyInt (n : Int)
deriving DecidableEq

/-- The policy dict used by the Python wrapper; the demo main uses
a timeout field. -/
structure Policy where
  timeout : Int
deriving DecidableEq

/-- One invocation of client.apply(key, module, func, args, policy): the
observable request the Python wrapper sends to the store. -/
structure ApplyCall where
  key : Key
  moduleName : String
  func : String
  args : List PyVal
  policy : Policy
deriving DecidableEq

namespace ExpireBin

/-- Embedding of the marshalling done by ExpireBin.put in
src/python/expire_bin.py: the create flag is remapped by
if create: create = 0 else: create = 1, and the apply call sends
[bin, val, bin_ttl, create]. -/
def put (policy : Policy) (key : Key) (bin : String) (val : PyVal)
    (bin_ttl : Int) (create : Bool) : ApplyCall :=
  let createInt : Int := if create then 0 else 1
  { key := key, moduleName := MODULE_NAME, func := PUT_OP,
    args := [PyVal.pyStr bin, val, PyVal.pyInt bin_ttl, PyVal.pyInt createInt],
    policy := policy }

/-- Embedding of the per-record callback clean_call built inside clean in
src/python/expire_bin.py: given a scan triple (key, metadata, record) it
issues self.client.apply(key, MODULE_NAME, CLEAN_OP, list(bins), self.policy).
The metadata and record components have abstract types since the callback
never looks at them. -/
def clean_call {μ ρ : Type} (policy : Policy) (bins : List String)
    (triple : Key × μ × ρ) : ApplyCall :=
  { key := triple.1, moduleName := MODULE_NAME, func := CLEAN_OP,
    args := bins.map PyVal.pyStr, policy := policy }

/-- Statements of the Python source, at the granularity needed to track
which names a suite binds and where control returns.  In this source the
only return statements sit directly inside a try block at suite level, and
the only if statement (the create remap in put) holds plain assignments in
both branches, so those two constructors need no recursive return/binding
analysis. -/
inductive PyStmt where
  | pyDef (name : String) (params : List String) (body : List PyStmt)
  | assignStmt (target : String)
  | ifStmt (thenB elseB : List PyStmt)
  | tryReturn
  | exprStmt

/-- Whether executing the statement leaves the enclosing suite (in this
source, exactly the try-return statements). -/
def returnsCtrl : PyStmt → Bool
  | PyStmt.tryReturn => true
  | _ => false

/-- Names the statement binds in the enclosing scope when executed.  An if
statement binds whatever its branches assign (in this source both branches
are plain assignments, so no recursion into nested defs is needed). -/
def stmtBinds : PyStmt → List String
  | PyStmt.pyDef n _ _ => [n]
  | PyStmt.assignStmt t => [t]
  | PyStmt.ifStmt t e =>
      (t.filterMap fun s => match s with
        | PyStmt.assignStmt x => some x
        | _ => none) ++
      (e.filterMap fun s => match s with
        | PyStmt.assignStmt x => some x
        | _ => none)
  | _ => []

/-- Names bound by executing a suite top to bottom; execution stops at the
first statement that returns control, so later statements bind nothing. -/
def boundNames : List PyStmt → List String
  | [] => []
  | s :: rest =>
      if returnsCtrl s then stmtBinds s else stmtBinds s ++ boundNames rest

/-- Whether a statement is a def of the given name. -/
def isDefNamed (n : String) : PyStmt → Bool
  | PyStmt.pyDef m _ _ => m == n
  | _ => false

/-- Parameter list of the first def of a given name in a suite. -/
def defParams (suite : List PyStmt) (n : String) : List String :=
  match suite.findSome? fun s => match s with
    | PyStmt.pyDef m ps _ => if m == n then some ps else none
    | _ => none with
  | some ps => ps
  | none => []

/-- Body of the clean def in src/python/expire_bin.py: the clean_call def
and the scan.foreach(clean_call) expression statement. -/
def clean_suite : List PyStmt :=
  [PyStmt.pyDef "clean_call" ["(key, metadata, record)"] [PyStmt.exprStmt],
   PyStmt.exprStmt]

/-- Body of ExpireBin.put in src/python/expire_bin.py: the create remap,
the try block whose normal path returns the apply result, and then the
three def statements that sit, still indented inside put, after the
return. -/
def put_suite : List PyStmt :=
  [PyStmt.ifStmt [PyStmt.assignStmt "create"] [PyStmt.assignStmt "create"],
   PyStmt.tryReturn,
   PyStmt.pyDef "puts" ["self", "key", "*binMaps"] [PyStmt.tryReturn],
   PyStmt.pyDef "touch" ["key", "*mapBins"] [PyStmt.tryReturn],
   PyStmt.pyDef "clean" ["scan", "*bins"] clean_suite]

/-- Body of the class ExpireBin statement in src/python/expire_bin.py:
three defs, with every other operation nested inside put. -/
def class_suite : List PyStmt :=
  [PyStmt.pyDef "__init__" ["self", "client", "policy"]
     [PyStmt.assignStmt "self.client", PyStmt.assignStmt "self.policy"],
   PyStmt.pyDef "get" ["self", "key", "*bins"] [PyStmt.tryReturn],
   PyStmt.pyDef "put" ["self", "key", "bin", "val", "bin_ttl", "create"]
     put_suite]

/-- The attribute names an ExpireBin instance can reach as methods: the
names bound by executing the class body (the class body runs to the end,
so these are its top-level defs). -/
def instanceMethods : List String := boundNames class_suite

end ExpireBin

namespace expire_bin

/-- Modelled from the spec: the expiration field of an expire-bin, an
absolute timestamp or a sentinel meaning never expires (the Lua module
expire_bin named by MODULE_NAME is not among the given sources). -/
inductive ExpTime where
  | never
  | ts (t : Int)
deriving DecidableEq

/-- Modelled from the spec: the content of one bin, either a plain value
or an expire-bin carrying its own expiration, as an explicit tagged
variant per the design notes of the spec. -/
inductive BinContent (α : Type) where
  | plain (v : α)
  | ebin (v : α) (expire_at : ExpTime)
deriving DecidableEq

/-- Modelled from the spec: the result of the Bin Codec decode, a record
with the kind tag, the logical payload and the expiration. -/
structure Decoded (α : Type) where
  is_expire_bin : Bool
  value : α
  expire_at : ExpTime
deriving DecidableEq

/-- Modelled from the spec: Bin Codec encode, packaging a value with its
expiration into the stored expire-bin shape. -/
def encode {α : Type} (v : α) (t : ExpTime) : BinContent α :=
  BinContent.ebin v t

/-- Modelled from the spec: Bin Codec decode; a plain value decodes with
the kind tag false (its expiration component is irrelevant and set to
never). -/
def decode {α : Type} : BinContent α → Decoded α
  | BinContent.plain v => ⟨false, v, ExpTime.never⟩
  | BinContent.ebin v t => ⟨true, v, t⟩

/-- Modelled from the spec: the three outcomes of the Expiration
Evaluator. -/
inductive Status where
  | LIVE
  | EXPIRED
  | NOT_TRACKED
deriving DecidableEq

/-- Modelled from the spec: the Expiration Evaluator. NOT_TRACKED when the
kind tag is false; EXPIRED when tagged, not the never sentinel, and
expire_at is at or before now; LIVE otherwise. -/
def status {α : Type} (d : Decoded α) (now : Int) : Status :=
  if d.is_expire_bin = false then Status.NOT_TRACKED
  else
    match d.expire_at with
    | ExpTime.never => Status.LIVE
    | ExpTime.ts t => if t ≤ now then Status.EXPIRED else Status.LIVE

/-- Modelled from the spec: a record is a mapping from bin name to bin
content, represented as an association list. -/
abbrev Record (α : Type) := List (String × BinContent α)

/-- Lookup of a bin in a record. -/
def recGet {α : Type} : Record α → String → Option (BinContent α)
  | [], _ => none
  | p :: rest, b => if p.1 == b then some p.2 else recGet rest b

/-- Write of a bin into a record: replace the first binding of the name,
or append a new binding. -/
def recSet {α : Type} : Record α → String → BinContent α → Record α
  | [], b, c => [(b, c)]
  | p :: rest, b, c =>
      if p.1 == b then (b, c) :: rest else p :: recSet rest b c

/-- Physical removal of a bin from a record. -/
def recRemove {α : Type} : Record α → String → Record α
  | [], _ => []
  | p :: rest, b =>
      if p.1 == b then recRemove rest b else p :: recRemove rest b

/-- Modelled from the spec: conversion of the caller-supplied ttl to the
absolute expiration; the Python docstring fixes -1 as the no-expiration
marker, every other ttl yields now + ttl. -/
def ttlToExpireAt (now ttl : Int) : ExpTime :=
  if ttl = -1 then ExpTime.never else ExpTime.ts (now + ttl)

/-- Modelled from the spec: the put operation of the Record Operation
Engine. On a missing bin, create decides between a fresh expire-bin and a
plain bin; on an existing expire-bin the value and expiration are updated
in place (never downgraded); on an existing plain bin, create decides
between an upgrade and a plain overwrite. -/
def put {α : Type} (r : Record α) (now : Int) (b : String) (v : α)
    (ttl : Int) (create : Bool) : Record α :=
  match recGet r b with
  | none =>
      if create then recSet r b (encode v (ttlToExpireAt now ttl))
      else recSet r b (BinContent.plain v)
  | some c =>
      if (decode c).is_expire_bin then recSet r b (encode v (ttlToExpireAt now ttl))
      else if create then recSet r b (encode v (ttlToExpireAt now ttl))
      else recSet r b (BinContent.plain v)

/-- Modelled from the spec: the per-name read of get; a missing or
EXPIRED bin yields the absent marker, a LIVE or NOT_TRACKED bin yields its
decoded value. -/
def getOne {α : Type} (r : Record α) (now : Int) (b : String) : Option α :=
  match recGet r b with
  | none => none
  | some c =>
      if status (decode c) now = Status.EXPIRED then none
      else some (decode c).value

/-- Modelled from the spec: the get operation; positionally aligned
output, and the record is returned unchanged (get never mutates). -/
def get {α : Type} (r : Record α) (now : Int) (bins : List String) :
    Record α × List (Option α) :=
  (r, bins.map (getOne r now))

/-- Modelled from the spec: one entry of a puts batch; omitting bin_ttl
turns expire-bin creation off for that entry. -/
structure PutEntry (α : Type) where
  bin : String
  val : α
  bin_ttl : Option Int
deriving DecidableEq

/-- Modelled from the spec: applying one batch entry with put semantics;
an omitted ttl means create = false for that entry. -/
def applyEntry {α : Type} (now : Int) (r : Record α) (e : PutEntry α) :
    Record α :=
  put r now e.bin e.val (e.bin_ttl.getD (-1)) e.bin_ttl.isSome

/-- Modelled from the spec: the puts batch over one record; entries are
applied in order, each write may be rejected by the store (the oracle
writeOk says whether the i-th write is accepted), the first rejection
makes the whole call report failure 1 without rolling back the entries
already applied; status 0 only when every entry succeeded. -/
def puts {α : Type} : Record α → Int → (Nat → Bool) → List (PutEntry α) →
    Record α × Int
  | r, _, _, [] => (r, 0)
  | r, now, writeOk, e :: rest =>
      if writeOk 0 then
        puts (applyEntry now r e) now (fun i => writeOk (i + 1)) rest
      else (r, 1)

/-- Modelled from the spec: the per-name step of clean; an EXPIRED bin is
physically removed, anything else is left untouched. -/
def cleanOne {α : Type} (now : Int) (r : Record α) (b : String) : Record α :=
  match recGet r b with
  | none => r
  | some c =>
      if status (decode c) now = Status.EXPIRED then recRemove r b else r

/-- Modelled from the spec: the clean operation of the Reaper over the
requested bin names of one record. -/
def clean {α : Type} (r : Record α) (now : Int) (bins : List String) :
    Record α :=
  bins.foldl (cleanOne now) r

/-- Modelled from the spec: the scan driver is an external collaborator
required to invoke the clean callback once per record and to continue
past callback failures; failOn says on which keys the store-level clean
write fails. The result is the store after the scan together with the
keys whose clean failed, reported per record. -/
def scanClean {α : Type} (now : Int) (bins : List String)
    (failOn : Key → Bool) :
    List (Key × Record α) → List (Key × Record α) × List Key
  | [] => ([], [])
  | (k, r) :: rest =>
      let tail := scanClean now bins failOn rest
      if failOn k then ((k, r) :: tail.1, k :: tail.2)
      else ((k, clean r now bins) :: tail.1, tail.2)

end expire_bin

/-! Helper lemmas on the record association list. -/

namespace expire_bin

theorem recGet_recSet_self {α : Type} (r : Record α) (b : String)
    (c : BinContent α) : recGet (recSet r b c) b = some c := by
  induction r with
  | nil => simp [recSet, recGet]
  | cons p rest ih =>
      by_cases h : p.1 == b
      · simp [recSet, recGet, h]
      · simp [recSet, recGet, h, ih]

theorem recGet_recRemove_self {α : Type} (r : Record α) (b : String) :
    recGet (recRemove r b) b = none := by
  induction r with
  | nil => simp [recRemove, recGet]
  | cons p rest ih =>
      by_cases h : p.1 == b
      · simp [recRemove, h, ih]
      · simp [recRemove, recGet, h, ih]

end expire_bin

/-! Theorems settling the claims. -/

open expire_bin

/-- C9: for every representable value v and every expiration t, including
the never sentinel and an expire_at already in the past, decoding the
encoding round-trips: decode (encode v t) has the kind tag true, value v
and expire_at t. -/
theorem codec_round_trip {α : Type} (v : α) (t : ExpTime) :
    decode (encode v t) = ⟨true, v, t⟩ := rfl

/-- C2: the Python wrapper forwards the boolean create argument to
client.apply as an integer with the inverted mapping: create = true is
sent as 0 and create = false is sent as 1, in the fourth argument
position of the put call. -/
theorem put_sends_inverted_create_flag (policy : Policy) (key : Key)
    (bin : String) (val : PyVal) (bin_ttl : Int) :
    (ExpireBin.put policy key bin val bin_ttl true).args =
      [PyVal.pyStr bin, val, PyVal.pyInt bin_ttl, PyVal.pyInt 0]
    ∧ (ExpireBin.put policy key bin val bin_ttl false).args =
      [PyVal.pyStr bin, val, PyVal.pyInt bin_ttl, PyVal.pyInt 1] :=
  ⟨rfl, rfl⟩

/-- C10: the per-record callback clean_call built by clean uses only the
key component of its (key, metadata, record) triple, and for every
visited record it issues the same clean operation of the expire_bin
module with the bin-name list fixed at the time clean was called. -/
theorem clean_call_uses_only_key {μ ρ : Type} (policy : Policy)
    (bins : List String) (k : Key) (m m2 : μ) (snap snap2 : ρ) :
    ExpireBin.clean_call policy bins (k, m, snap) =
      ExpireBin.clean_call policy bins (k, m2, snap2)
    ∧ (ExpireBin.clean_call policy bins (k, m, snap)).key = k
    ∧ (ExpireBin.clean_call policy bins (k, m, snap)).moduleName = MODULE_NAME
    ∧ (ExpireBin.clean_call policy bins (k, m, snap)).func = CLEAN_OP
    ∧ (ExpireBin.clean_call policy bins (k, m, snap)).args =
        bins.map PyVal.pyStr :=
  ⟨rfl, rfl, rfl, rfl, rfl⟩

/-- C3: puts, touch and clean are not reachable as instance methods of
ExpireBin: the names an instance can reach are exactly the defs bound by
the class body, puts, touch and clean are not among them; their defs sit
in the body of put after the statement that returns, so a call to put
never binds them either; and the touch and clean defs lack a self
parameter. -/
theorem nested_ops_unreachable :
    ExpireBin.instanceMethods = ["__init__", "get", "put"]
    ∧ "puts" ∉ ExpireBin.instanceMethods
    ∧ "touch" ∉ ExpireBin.instanceMethods
    ∧ "clean" ∉ ExpireBin.instanceMethods
    ∧ "puts" ∉ ExpireBin.boundNames ExpireBin.put_suite
    ∧ "touch" ∉ ExpireBin.boundNames ExpireBin.put_suite
    ∧ "clean" ∉ ExpireBin.boundNames ExpireBin.put_suite
    ∧ ((ExpireBin.put_suite.dropWhile fun s =>
          !(ExpireBin.returnsCtrl s)).any (ExpireBin.isDefNamed "puts")) = true
    ∧ ((ExpireBin.put_suite.dropWhile fun s =>
          !(ExpireBin.returnsCtrl s)).any (ExpireBin.isDefNamed "touch")) = true
    ∧ ((ExpireBin.put_suite.dropWhile fun s =>
          !(ExpireBin.returnsCtrl s)).any (ExpireBin.isDefNamed "clean")) = true
    ∧ ExpireBin.defParams ExpireBin.put_suite "touch" = ["key", "*mapBins"]
    ∧ "self" ∉ ExpireBin.defParams ExpireBin.put_suite "touch"
    ∧ ExpireBin.defParams ExpireBin.put_suite "clean" = ["scan", "*bins"]
    ∧ "self" ∉ ExpireBin.defParams ExpireBin.put_suite "clean" := by
  decide

/-- C1: on a non-existent bin, put with create = true produces an
expire-bin whose expire_at is now + ttl, or the never sentinel when the
ttl is the no-expiration marker -1; put with create = false produces a
plain bin regardless of the ttl argument. -/
theorem put_create_policy {α : Type} (r : Record α) (now : Int)
    (b : String) (v : α) (ttl : Int) (h : recGet r b = none) :
    recGet (expire_bin.put r now b v ttl true) b =
      some (BinContent.ebin v
        (if ttl = -1 then ExpTime.never else ExpTime.ts (now + ttl)))
    ∧ recGet (expire_bin.put r now b v ttl false) b =
      some (BinContent.plain v) := by
  constructor
  · simp only [expire_bin.put, h, if_true, encode, ttlToExpireAt]
    exact recGet_recSet_self r b _
  · simp only [expire_bin.put, h, Bool.false_eq_true, if_false]
    exact recGet_recSet_self r b _

/-- C1 witness: on the empty record, put of value 7 with ttl 5 at time
100 and create = true yields an expire-bin expiring at 105, and with
create = false a plain bin. -/
theorem put_create_policy_witness :
    recGet ([] : Record Nat) "score" = none
    ∧ recGet (expire_bin.put ([] : Record Nat) 100 "score" 7 5 true) "score" =
        some (BinContent.ebin 7 (ExpTime.ts 105))
    ∧ recGet (expire_bin.put ([] : Record Nat) 100 "score" 7 5 false) "score" =
        some (BinContent.plain 7) := by
  refine ⟨rfl, ?_, ?_⟩
  · have h := (put_create_policy ([] : Record Nat) 100 "score" 7 5 rfl).1
    simpa using h
  · exact (put_create_policy ([] : Record Nat) 100 "score" 7 5 rfl).2

/-- C5: for an expire-bin with expire_at = T, get evaluated at a time
strictly before T returns the stored value at that position, get at a
time at or after T returns the absent marker, and in both cases the
stored record component is unchanged. -/
theorem get_lazy_expiration {α : Type} (r : Record α) (b : String)
    (v : α) (T now : Int)
    (h : recGet r b = some (BinContent.ebin v (ExpTime.ts T))) :
    (now < T → (expire_bin.get r now [b]).2 = [some v])
    ∧ (T ≤ now → (expire_bin.get r now [b]).2 = [none])
    ∧ (expire_bin.get r now [b]).1 = r := by
  refine ⟨?_, ?_, rfl⟩
  · intro hlt
    simp [expire_bin.get, getOne, h, decode, status, not_le.mpr hlt]
  · intro hge
    simp [expire_bin.get, getOne, h, decode, status, hge]

/-- C5 witness: for a record holding an expire-bin at bin a with value 3
expiring at time 10, get at time 9 returns the value, get at time 10
returns the absent marker, and the record passes through unchanged. -/
theorem get_lazy_expiration_witness :
    recGet ([("a", BinContent.ebin 3 (ExpTime.ts 10))] : Record Nat) "a" =
      some (BinContent.ebin 3 (ExpTime.ts 10))
    ∧ (expire_bin.get
        ([("a", BinContent.ebin 3 (ExpTime.ts 10))] : Record Nat) 9 ["a"]).2 =
      [some 3]
    ∧ (expire_bin.get
        ([("a", BinContent.ebin 3 (ExpTime.ts 10))] : Record Nat) 10 ["a"]).2 =
      [none]
    ∧ (expire_bin.get
        ([("a", BinContent.ebin 3 (ExpTime.ts 10))] : Record Nat) 9 ["a"]).1 =
      [("a", BinContent.ebin 3 (ExpTime.ts 10))] := by
  refine ⟨rfl, ?_, ?_, ?_⟩
  · exact (get_lazy_expiration
      ([("a", BinContent.ebin 3 (ExpTime.ts 10))] : Record Nat)
      "a" 3 10 9 rfl).1 (by norm_num)
  · exact (get_lazy_expiration
      ([("a", BinContent.ebin 3 (ExpTime.ts 10))] : Record Nat)
      "a" 3 10 10 rfl).2.1 (by norm_num)
  · exact (get_lazy_expiration
      ([("a", BinContent.ebin 3 (ExpTime.ts 10))] : Record Nat)
      "a" 3 10 9 rfl).2.2

/-- C7: once a bin is an expire-bin, a subsequent put on it with
create = false still updates its value and expire_at in place and the
result still decodes as an expire-bin: the expiration metadata is never
removed. -/
theorem put_no_downgrade {α : Type} (r : Record α) (now : Int)
    (b : String) (v0 v : α) (t0 : ExpTime) (ttl : Int)
    (h : recGet r b = some (BinContent.ebin v0 t0)) :
    recGet (expire_bin.put r now b v ttl false) b =
      some (BinContent.ebin v (ttlToExpireAt now ttl))
    ∧ ∀ c, recGet (expire_bin.put r now b v ttl false) b = some c →
        (decode c).is_expire_bin = true := by
  have hmain : recGet (expire_bin.put r now b v ttl false) b =
      some (BinContent.ebin v (ttlToExpireAt now ttl)) := by
    simp only [expire_bin.put, h, decode, if_true, encode]
    exact recGet_recSet_self r b _
  refine ⟨hmain, ?_⟩
  intro c hc
  rw [hmain] at hc
  cases hc
  rfl

/-- C7 witness: a record whose bin a is an expire-bin with value 1
expiring never, after put of value 2 with ttl 5 at time 100 and
create = false, still holds an expire-bin at a, now with value 2 and
expire_at 105. -/
theorem put_no_downgrade_witness :
    recGet ([("a", BinContent.ebin 1 ExpTime.never)] : Record Nat) "a" =
      some (BinContent.ebin 1 ExpTime.never)
    ∧ recGet (expire_bin.put
        ([("a", BinContent.ebin 1 ExpTime.never)] : Record Nat)
        100 "a" 2 5 false) "a" =
      some (BinContent.ebin 2 (ExpTime.ts 105)) := by
  refine ⟨rfl, ?_⟩
  have h := (put_no_downgrade
    ([("a", BinContent.ebin 1 ExpTime.never)] : Record Nat)
    100 "a" 1 2 ExpTime.never 5 rfl).1
  simpa [ttlToExpireAt] using h

/-- C8: after clean of the single bin name b on a record where b is
present, b is absent from the bin mapping when its status at evaluation
time was EXPIRED, and the record is completely unchanged when the status
was LIVE or NOT_TRACKED. -/
theorem clean_reaper_correct {α : Type} (r : Record α) (now : Int)
    (b : String) (c : BinContent α) (h : recGet r b = some c) :
    (status (decode c) now = Status.EXPIRED →
      recGet (expire_bin.clean r now [b]) b = none)
    ∧ (status (decode c) now = Status.LIVE ∨
        status (decode c) now = Status.NOT_TRACKED →
      expire_bin.clean r now [b] = r) := by
  constructor
  · intro hexp
    simp only [expire_bin.clean, List.foldl, cleanOne, h, hexp, if_true]
    exact recGet_recRemove_self r b
  · intro hlive
    have hne : ¬ status (decode c) now = Status.EXPIRED := by
      rcases hlive with h1 | h1 <;> simp [h1]
    simp [expire_bin.clean, cleanOne, h, hne]

/-- C8 witness: on a record with an expired bin a (expire_at 10,
evaluated at 10) and a live bin b (expire_at 99), clean of a removes a,
and clean of b leaves the record unchanged. -/
theorem clean_reaper_correct_witness :
    recGet ([("a", BinContent.ebin 3 (ExpTime.ts 10)),
             ("b", BinContent.ebin 4 (ExpTime.ts 99))] : Record Nat) "a" =
      some (BinContent.ebin 3 (ExpTime.ts 10))
    ∧ recGet (expire_bin.clean
        ([("a", BinContent.ebin 3 (ExpTime.ts 10)),
          ("b", BinContent.ebin 4 (ExpTime.ts 99))] : Record Nat) 10 ["a"])
        "a" = none
    ∧ expire_bin.clean
        ([("a", BinContent.ebin 3 (ExpTime.ts 10)),
          ("b", BinContent.ebin 4 (ExpTime.ts 99))] : Record Nat) 10 ["b"] =
      [("a", BinContent.ebin 3 (ExpTime.ts 10)),
       ("b", BinContent.ebin 4 (ExpTime.ts 99))] := by
  refine ⟨rfl, ?_, ?_⟩
  · exact (clean_reaper_correct
      ([("a", BinContent.ebin 3 (ExpTime.ts 10)),
        ("b", BinContent.ebin 4 (ExpTime.ts 99))] : Record Nat)
      10 "a" (BinContent.ebin 3 (ExpTime.ts 10)) rfl).1 (by decide)
  · exact (clean_reaper_correct
      ([("a", BinContent.ebin 3 (ExpTime.ts 10)),
        ("b", BinContent.ebin 4 (ExpTime.ts 99))] : Record Nat)
      10 "b" (BinContent.ebin 4 (ExpTime.ts 99)) rfl).2 (Or.inl (by decide))

theorem puts_zero_iff {α : Type} (now : Int) (es : List (PutEntry α)) :
    ∀ (r : Record α) (w : Nat → Bool),
      (expire_bin.puts r now w es).2 = 0 ↔
        ∀ i, i < es.length → w i = true := by
  induction es with
  | nil =>
      intro r w
      simp [expire_bin.puts]
  | cons e rest ih =>
      intro r w
      by_cases hw : w 0 = true
      · rw [expire_bin.puts, if_pos hw, ih]
        constructor
        · intro h i hi
          cases i with
          | zero => exact hw
          | succ j => exact h j (by simpa using hi)
        · intro h i hi
          exact h (i + 1) (by simpa using hi)
      · rw [expire_bin.puts, if_neg hw]
        simp only [List.length_cons]
        constructor
        · intro h
          exact absurd h (by norm_num)
        · intro h
          exact absurd (h 0 (Nat.succ_pos _)) hw

theorem puts_no_rollback {α : Type} (now : Int) (es : List (PutEntry α)) :
    ∀ (r : Record α) (w : Nat → Bool) (k : Nat),
      k < es.length → w k = false → (∀ i, i < k → w i = true) →
      (expire_bin.puts r now w es).2 = 1 ∧
      (expire_bin.puts r now w es).1 =
        (es.take k).foldl (applyEntry now) r := by
  induction es with
  | nil =>
      intro r w k hk
      exact absurd hk (by simp)
  | cons e rest ih =>
      intro r w k hk hfail hok
      cases k with
      | zero =>
          have hw : ¬ w 0 = true := by simp [hfail]
          rw [expire_bin.puts, if_neg hw]
          simp
      | succ k =>
          have hw0 : w 0 = true := hok 0 (Nat.succ_pos k)
          rw [expire_bin.puts, if_pos hw0]
          have h := ih (applyEntry now r e) (fun i => w (i + 1)) k
            (by simpa using hk) hfail (fun i hi => hok (i + 1) (by omega))
          simpa [List.take] using h

/-- C6: the puts batch returns the success status 0 if and only if every
entry of the batch succeeded; if some entry fails while all entries
before it succeeded, the whole call reports failure 1, but the entries
applied before the failing one remain applied, with no rollback. -/
theorem puts_batch_semantics {α : Type} (r : Record α) (now : Int)
    (w : Nat → Bool) (es : List (PutEntry α)) :
    ((expire_bin.puts r now w es).2 = 0 ↔
      ∀ i, i < es.length → w i = true)
    ∧ (∀ k, k < es.length → w k = false → (∀ i, i < k → w i = true) →
        (expire_bin.puts r now w es).2 = 1 ∧
        (expire_bin.puts r now w es).1 =
          (es.take k).foldl (applyEntry now) r) :=
  ⟨puts_zero_iff now es r w,
   fun k hk hfail hok => puts_no_rollback now es r w k hk hfail hok⟩

/-- C6 witness: on a two-entry batch whose second store write is
rejected, puts reports failure 1 while the first entry remains applied;
the resulting record equals the fold of the first entry alone. -/
theorem puts_batch_semantics_witness :
    (1 < ([⟨"a", 1, some 10⟩, ⟨"b", 2, none⟩] : List (PutEntry Nat)).length)
    ∧ (fun i => decide (i < 1)) 1 = false
    ∧ (expire_bin.puts ([] : Record Nat) 0 (fun i => decide (i < 1))
        [⟨"a", 1, some 10⟩, ⟨"b", 2, none⟩]).2 = 1
    ∧ (expire_bin.puts ([] : Record Nat) 0 (fun i => decide (i < 1))
        [⟨"a", 1, some 10⟩, ⟨"b", 2, none⟩]).1 =
      (([⟨"a", 1, some 10⟩, ⟨"b", 2, none⟩] : List (PutEntry Nat)).take 1).foldl
        (applyEntry 0) ([] : Record Nat) := by
  refine ⟨by decide, by decide, ?_⟩
  exact (puts_batch_semantics ([] : Record Nat) 0 (fun i => decide (i < 1))
    [⟨"a", 1, some 10⟩, ⟨"b", 2, none⟩]).2 1 (by decide) (by decide)
    (fun i hi => by
      have : i = 0 := Nat.lt_one_iff.mp hi
      subst this
      decide)

/-- C4: a failure of the clean operation on one visited record does not
abort the reaper scan: every visited record is still processed (those
whose clean write is accepted end up cleaned, the failing ones keep their
record), and each failing record is reported by key. -/
theorem scan_continues_past_failures {α : Type} (now : Int)
    (bins : List String) (failOn : Key → Bool)
    (store : List (Key × Record α)) :
    (scanClean now bins failOn store).1 =
      store.map (fun p =>
        (p.1, if failOn p.1 then p.2 else expire_bin.clean p.2 now bins))
    ∧ (scanClean now bins failOn store).2 =
      (store.filter fun p => failOn p.1).map Prod.fst := by
  induction store with
  | nil => exact ⟨rfl, rfl⟩
  | cons p rest ih =>
      obtain ⟨k, r⟩ := p
      by_cases h : failOn k = true
      · simp [scanClean, h, ih.1, ih.2, List.filter]
      · simp only [Bool.not_eq_true] at h
        simp [scanClean, h, ih.1, ih.2, List.filter]

end ExpirableBin
